import Mathlib

/-!
Verification development for the 3d-cellular-automata repository
(src/src/main.rs).  The simulation core is shallowly embedded:

* All coordinate arithmetic in the source is done on `f32` values that are
  always integer-valued (positions come from `translate_index_to_location`,
  from integer offsets, or from `i32` random draws) and stay far below
  2^24 in magnitude on every path modelled here, so every `f32` operation
  involved is exact; coordinates are therefore embedded as `Int`.
  `CELL_SIZE` is `1.0`, so the `(x / CELL_SIZE).floor() * CELL_SIZE`
  snapping in `translate_location_to_index` is the identity on these
  integer-valued inputs and is folded away.
* Rust's saturating `f32 as usize` cast (negative values go to `0`) is
  `Int.toNat`.
* The grid `[bool; CELL_LOCATIONS_SIZE]` is embedded as a total function
  `Nat → Bool`; in-boundedness of every index the source actually reads or
  writes is proved separately.
* `bevy`'s `par_chunk_map` splits the index list into contiguous chunks of
  the requested size (last chunk absorbing the remainder) and returns the
  per-chunk results in chunk order; it is embedded as `par_chunks` plus a
  `List.map`, and the apply loop mirrors the source's
  adds-then-removes-per-chunk order.
* `rand::thread_rng` / `Uniform::from(lo..hi)` sampling is embedded by
  passing an oracle `rng : Nat → Nat` of arbitrary draw outcomes; a draw
  from the half-open range `[lo, lo+d)` is `lo + rng n % d`, which realises
  exactly the values the library can return.
-/

namespace Cellular

/-- GAME_SIZE from main.rs (`100.`). -/
def GAME_SIZE : Int := 100

/-- CELL_LOCATIONS_SIZE from main.rs: `(GAME_SIZE * GAME_SIZE * GAME_SIZE) as usize`. -/
def CELL_LOCATIONS_SIZE : Nat := 1000000

/-- GameRule from main.rs.  The two gradient colors are omitted: no claim
mentions them.  The rule tables are `[bool; 27]` in the source, indexed by a
neighbor count that is at most 26; they are embedded as total functions. -/
structure GameRule where
  neighbors_to_surive : Nat → Bool
  neighbors_to_spawn : Nat → Bool
  spawn_noise_count : Int
  spawn_noise_radius : Int

/-- GameRule::to_dense_array: starts from an all-false table and sets the
entry of every listed count to true. -/
def GameRule.to_dense_array (vc : List Nat) : Nat → Bool :=
  vc.foldl (fun ar i => fun j => if j = i then true else ar j) (fun _ => false)

/-- GameRule::default: survive on {5,6,7,8}, spawn on {6,7,9},
noise count 50000, noise radius 75. -/
def GameRule.default : GameRule :=
  { neighbors_to_surive := GameRule.to_dense_array [5, 6, 7, 8]
    neighbors_to_spawn := GameRule.to_dense_array [6, 7, 9]
    spawn_noise_count := 50000
    spawn_noise_radius := 75 }

/-- translate_location_to_index from main.rs: offset each coordinate by
`GAME_SIZE / 2` and linearize; the final `as usize` cast is `Int.toNat`. -/
def translate_location_to_index (x y z : Int) : Nat :=
  ((x + GAME_SIZE / 2) + GAME_SIZE * (y + GAME_SIZE / 2)
    + GAME_SIZE * GAME_SIZE * (z + GAME_SIZE / 2)).toNat

/-- translate_index_to_location from main.rs. -/
def translate_index_to_location (index : Nat) : Int × Int × Int :=
  ((index : Int) % GAME_SIZE - GAME_SIZE / 2,
   ((index : Int) / GAME_SIZE) % GAME_SIZE - GAME_SIZE / 2,
   (index : Int) / (GAME_SIZE * GAME_SIZE) - GAME_SIZE / 2)

/-- the `locations` array inside get_neighbors: the 26 potential neighbor
offsets, in source order. -/
def locations : List (Int × Int × Int) :=
  [(-1, -1, -1), (0, -1, -1), (1, -1, -1),
   (-1, 0, -1), (0, 0, -1), (1, 0, -1),
   (-1, 1, -1), (0, 1, -1), (1, 1, -1),
   (-1, -1, 0), (0, -1, 0), (1, -1, 0),
   (-1, 0, 0), (1, 0, 0),
   (-1, 1, 0), (0, 1, 0), (1, 1, 0),
   (-1, -1, 1), (0, -1, 1), (1, -1, 1),
   (-1, 0, 1), (0, 0, 1), (1, 0, 1),
   (-1, 1, 1), (0, 1, 1), (1, 1, 1)]

/-- get_neighbors from main.rs: decode the index, fold over the 26 offsets,
skip an offset when `loc.abs() + offset >= GAME_SIZE / 2 - 1` on some axis,
otherwise add 1 when the mapped neighbor cell is alive. -/
def get_neighbors (index : Nat) (cell_locations : Nat → Bool) : Nat :=
  let loc := translate_index_to_location index
  locations.foldl
    (fun acc x =>
      if (loc.1.natAbs : Int) + x.1 ≥ GAME_SIZE / 2 - 1 ∨
         (loc.2.1.natAbs : Int) + x.2.1 ≥ GAME_SIZE / 2 - 1 ∨
         (loc.2.2.natAbs : Int) + x.2.2 ≥ GAME_SIZE / 2 - 1 then
        acc
      else
        match cell_locations (translate_location_to_index
            (loc.1 + x.1) (loc.2.1 + x.2.1) (loc.2.2 + x.2.2)) with
        | true => acc + 1
        | false => acc)
    0

/-- the `chunck_size` binding in cell_location_updater (source spelling):
`((GAME_SIZE * GAME_SIZE * GAME_SIZE) / 32.) as usize = 31250`. -/
def chunck_size : Nat := CELL_LOCATIONS_SIZE / 32

/-- The loop body of one chunk in cell_location_updater: push `i` onto the
add list when the spawn table holds at its neighbor count, onto the remove
list when the survive table does not. -/
def chunk_step (cell_locations : Nat → Bool) (game_rule : GameRule)
    (acc : List Nat × List Nat) (i : Nat) : List Nat × List Nat :=
  let nc := get_neighbors i cell_locations
  (if game_rule.neighbors_to_spawn nc then acc.1 ++ [i] else acc.1,
   if game_rule.neighbors_to_surive nc then acc.2 else acc.2 ++ [i])

/-- The closure passed to `par_chunk_map` in cell_location_updater: one
chunk produces its `(cells_to_add, cells_to_remove)` pair, reading only the
frozen pre-tick grid. -/
def chunk_map (cell_locations : Nat → Bool) (game_rule : GameRule)
    (chunck : List Nat) : List Nat × List Nat :=
  chunck.foldl (chunk_step cell_locations game_rule) ([], [])

/-- A write loop of the apply phase: set every index of `l` to `v`. -/
def set_indices (v : Bool) (l : List Nat) (g : Nat → Bool) : Nat → Bool :=
  l.foldl (fun a i => fun j => if j = i then v else a j) g

/-- The apply phase of cell_location_updater: for each chunk result in
order, set its add indices alive and then its remove indices dead. -/
def apply_changes (changes : List (List Nat × List Nat)) (g : Nat → Bool) :
    Nat → Bool :=
  changes.foldl (fun acc c => set_indices false c.2 (set_indices true c.1 acc)) g

/-- bevy's `par_chunk_map` chunking: contiguous chunks of `k` elements, the
last chunk absorbing the remainder. -/
def par_chunks (k : Nat) (l : List Nat) : List (List Nat) :=
  if h : l = [] then []
  else if hk : k = 0 then [l]
  else l.take k :: par_chunks k (l.drop k)
termination_by l.length
decreasing_by
  simp_wf
  exact ⟨List.length_pos.mpr h, Nat.pos_of_ne_zero hk⟩

/-- cell_location_updater with the chunking made explicit, so that
re-chunking claims can quantify over it. -/
def cell_location_updater_chunked (cell_locations : Nat → Bool)
    (game_rule : GameRule) (chunks : List (List Nat)) : Nat → Bool :=
  apply_changes (chunks.map (chunk_map cell_locations game_rule)) cell_locations

/-- cell_location_updater from main.rs: no-op when paused, otherwise chunk
`(0..max_size)` into pieces of `chunck_size`, map each chunk to its
add/remove lists against the pre-tick grid, and apply all chunk results. -/
def cell_location_updater (cell_locations : Nat → Bool) (game_rule : GameRule)
    (paused : Bool) : Nat → Bool :=
  if paused then cell_locations
  else
    cell_location_updater_chunked cell_locations game_rule
      (par_chunks chunck_size (List.range CELL_LOCATIONS_SIZE))

/-- Rust `i32::clamp(lo, hi)` (requires `lo ≤ hi`, which holds at the one
call site, where the bounds are `-50` and `50`). -/
def clampI (v lo hi : Int) : Int :=
  if v < lo then lo else if v > hi then hi else v

/-- One draw of `Uniform::from(lo..(lo+width)).sample`, with the random
outcome supplied by the oracle value `r`; for `width > 0` this ranges over
exactly `[lo, lo+width)`. -/
def sample_uniform (lo width : Int) (r : Nat) : Int :=
  lo + ((r % width.toNat : Nat) : Int)

/-- create_random_spawn_points from main.rs: clamp each axis start of the
sampling cube into `[-GAME_SIZE/2, GAME_SIZE/2]`, then draw `points`
triples uniformly from the half-open cube, consuming three rng oracle
draws per point.  The source returns the `i32` draws cast to `f32`
(exactly); they are kept as `Int` here. -/
def create_random_spawn_points (points : Int) (center : Int × Int × Int)
    (distance : Int) (rng : Nat → Nat) : List (Int × Int × Int) :=
  let x_start := clampI (center.1 - distance / 2) (-(GAME_SIZE / 2)) (GAME_SIZE / 2)
  let y_start := clampI (center.2.1 - distance / 2) (-(GAME_SIZE / 2)) (GAME_SIZE / 2)
  let z_start := clampI (center.2.2 - distance / 2) (-(GAME_SIZE / 2)) (GAME_SIZE / 2)
  (List.range points.toNat).map (fun k =>
    (sample_uniform x_start distance (rng (3 * k)),
     sample_uniform y_start distance (rng (3 * k + 1)),
     sample_uniform z_start distance (rng (3 * k + 2))))

/-- The per-offset test that get_neighbors actually applies, packaged as a
boolean: the offset is counted when no axis satisfies the source's skip
comparison `loc.abs() + offset >= GAME_SIZE / 2 - 1` and the mapped
neighbor cell is alive. -/
def neighbor_counted (g : Nat → Bool) (p o : Int × Int × Int) : Bool :=
  (decide (¬((p.1.natAbs : Int) + o.1 ≥ GAME_SIZE / 2 - 1 ∨
             (p.2.1.natAbs : Int) + o.2.1 ≥ GAME_SIZE / 2 - 1 ∨
             (p.2.2.natAbs : Int) + o.2.2 ≥ GAME_SIZE / 2 - 1))) &&
  g (translate_location_to_index (p.1 + o.1) (p.2.1 + o.2.1) (p.2.2 + o.2.2))

/-- Modelled from the spec sentence behind claim C3 (for comparison with
the source): a neighbor counter whose skip test is
`|p.x+o.x| >= side/2 - 1` per axis, i.e. the absolute value taken of the
sum rather than of the position alone.  Everything else follows
get_neighbors. -/
def get_neighbors_claimed (index : Nat) (cell_locations : Nat → Bool) : Nat :=
  let loc := translate_index_to_location index
  locations.foldl
    (fun acc x =>
      if ((loc.1 + x.1).natAbs : Int) ≥ GAME_SIZE / 2 - 1 ∨
         ((loc.2.1 + x.2.1).natAbs : Int) ≥ GAME_SIZE / 2 - 1 ∨
         ((loc.2.2 + x.2.2).natAbs : Int) ≥ GAME_SIZE / 2 - 1 then
        acc
      else
        match cell_locations (translate_location_to_index
            (loc.1 + x.1) (loc.2.1 + x.2.1) (loc.2.2 + x.2.2)) with
        | true => acc + 1
        | false => acc)
    0

/-- The fold body of get_neighbors, named so that proofs can manipulate it;
`get_neighbors i g` is definitionally `locations.foldl
(neighbors_fold_body g (translate_index_to_location i)) 0`. -/
def neighbors_fold_body (g : Nat → Bool) (p : Int × Int × Int)
    (acc : Nat) (x : Int × Int × Int) : Nat :=
  if (p.1.natAbs : Int) + x.1 ≥ GAME_SIZE / 2 - 1 ∨
     (p.2.1.natAbs : Int) + x.2.1 ≥ GAME_SIZE / 2 - 1 ∨
     (p.2.2.natAbs : Int) + x.2.2 ≥ GAME_SIZE / 2 - 1 then
    acc
  else
    match g (translate_location_to_index
        (p.1 + x.1) (p.2.1 + x.2.1) (p.2.2 + x.2.2)) with
    | true => acc + 1
    | false => acc

/-- A grid with a single live cell at index `j0`. -/
def grid_single (j0 : Nat) : Nat → Bool := fun j => j == j0

/-- A grid whose live cells are exactly 9 of the 26 neighbors of the cell
at position (0,0,0) (index 505050): the full 3x3 layer at z = -1. -/
def grid_nine : Nat → Bool := fun j =>
  [494949, 494950, 494951, 495049, 495050, 495051,
   495149, 495150, 495151].contains j

section Lemmas

/-- Folding a conditional increment over a list counts the satisfying
elements. -/
lemma foldl_if_count {α : Type} (p : α → Bool) (l : List α) : ∀ n : Nat,
    l.foldl (fun acc x => if p x then acc + 1 else acc) n = n + l.countP p := by
  induction l with
  | nil => intro n; simp
  | cons a t ih =>
      intro n
      by_cases hp : p a = true <;>
        simp [List.foldl_cons, List.countP_cons, hp, ih] <;> omega

/-- The fold body of get_neighbors is a conditional count on the
neighbor_counted test. -/
lemma neighbors_fold_body_eq (g : Nat → Bool) (p : Int × Int × Int) :
    neighbors_fold_body g p =
      fun acc x => if neighbor_counted g p x then acc + 1 else acc := by
  funext acc x
  unfold neighbors_fold_body
  by_cases hs : (p.1.natAbs : Int) + x.1 ≥ GAME_SIZE / 2 - 1 ∨
      (p.2.1.natAbs : Int) + x.2.1 ≥ GAME_SIZE / 2 - 1 ∨
      (p.2.2.natAbs : Int) + x.2.2 ≥ GAME_SIZE / 2 - 1
  · rw [if_pos hs]
    have hb : neighbor_counted g p x = false := by
      unfold neighbor_counted
      rw [decide_eq_false (not_not_intro hs)]
      rfl
    rw [hb]
    rfl
  · rw [if_neg hs]
    have hd : decide
        (¬((p.1.natAbs : Int) + x.1 ≥ GAME_SIZE / 2 - 1 ∨
           (p.2.1.natAbs : Int) + x.2.1 ≥ GAME_SIZE / 2 - 1 ∨
           (p.2.2.natAbs : Int) + x.2.2 ≥ GAME_SIZE / 2 - 1)) = true :=
      decide_eq_true hs
    cases hg : g (translate_location_to_index
        (p.1 + x.1) (p.2.1 + x.2.1) (p.2.2 + x.2.2)) with
    | true =>
        have hb : neighbor_counted g p x = true := by
          unfold neighbor_counted
          rw [hd, hg]
          rfl
        rw [hb]
        rfl
    | false =>
        have hb : neighbor_counted g p x = false := by
          unfold neighbor_counted
          rw [hd, hg]
          rfl
        rw [hb]
        rfl

/-- get_neighbors is the number of offsets whose neighbor_counted test
holds: the fold in the source is a conditional count. -/
lemma get_neighbors_eq_countP (g : Nat → Bool) (i : Nat) :
    get_neighbors i g =
      locations.countP (neighbor_counted g (translate_index_to_location i)) := by
  have hrfl : get_neighbors i g =
      locations.foldl (neighbors_fold_body g (translate_index_to_location i)) 0 := rfl
  rw [hrfl, neighbors_fold_body_eq, foldl_if_count]
  omega

/-- In a duplicate-free list where any two elements satisfying `p` are
equal, at most one element satisfies `p`. -/
lemma countP_le_one {α : Type} (l : List α) (hnd : l.Nodup) (p : α → Bool)
    (huniq : ∀ a ∈ l, ∀ b ∈ l, p a = true → p b = true → a = b) :
    l.countP p ≤ 1 := by
  rw [List.countP_eq_length_filter]
  rcases hf : l.filter p with _ | ⟨a, t⟩
  · simp
  · rcases t with _ | ⟨b, t2⟩
    · simp
    · exfalso
      have hsub : (l.filter p).Nodup := hnd.filter p
      rw [hf] at hsub
      have hab : a ≠ b := by
        have := hsub
        simp [List.nodup_cons] at this
        exact fun h => this.1.1 h
      have ha : a ∈ l.filter p := by rw [hf]; exact List.mem_cons_self a _
      have hb : b ∈ l.filter p := by
        rw [hf]; exact List.mem_cons_of_mem a (List.mem_cons_self b _)
      rw [List.mem_filter] at ha hb
      exact hab (huniq a ha.1 b hb.1 ha.2 hb.2)

/-- The 26 neighbor offsets are pairwise distinct. -/
lemma locations_nodup : locations.Nodup := by decide

/-- Every neighbor offset has components of absolute value at most 1. -/
lemma locations_bounds : ∀ o ∈ locations,
    o.1.natAbs ≤ 1 ∧ o.2.1.natAbs ≤ 1 ∧ o.2.2.natAbs ≤ 1 := by decide

/-- Decoding an in-range index gives a position inside the lattice box
`[-50, 49]` on each axis. -/
lemma loc_box (i : Nat) (hi : i < CELL_LOCATIONS_SIZE) :
    (-50 ≤ (translate_index_to_location i).1 ∧ (translate_index_to_location i).1 ≤ 49) ∧
    (-50 ≤ (translate_index_to_location i).2.1 ∧ (translate_index_to_location i).2.1 ≤ 49) ∧
    (-50 ≤ (translate_index_to_location i).2.2 ∧ (translate_index_to_location i).2.2 ≤ 49) := by
  simp only [translate_index_to_location, GAME_SIZE]
  simp only [CELL_LOCATIONS_SIZE] at hi
  norm_num
  omega

/-- Encoding any position inside the lattice box gives an in-range index. -/
lemma translate_lt (x y z : Int)
    (hx : -50 ≤ x ∧ x ≤ 49) (hy : -50 ≤ y ∧ y ≤ 49) (hz : -50 ≤ z ∧ z ≤ 49) :
    translate_location_to_index x y z < CELL_LOCATIONS_SIZE := by
  simp only [translate_location_to_index, GAME_SIZE, CELL_LOCATIONS_SIZE]
  norm_num
  omega

/-- Encoding is injective on the lattice box. -/
lemma translate_inj (x y z a b c : Int)
    (hx : -50 ≤ x ∧ x ≤ 49) (hy : -50 ≤ y ∧ y ≤ 49) (hz : -50 ≤ z ∧ z ≤ 49)
    (ha : -50 ≤ a ∧ a ≤ 49) (hb : -50 ≤ b ∧ b ≤ 49) (hc : -50 ≤ c ∧ c ≤ 49)
    (heq : translate_location_to_index x y z = translate_location_to_index a b c) :
    x = a ∧ y = b ∧ z = c := by
  simp only [translate_location_to_index, GAME_SIZE] at heq
  norm_num at heq
  omega

/-- A set_indices write loop changes exactly the listed indices. -/
lemma set_indices_eq (v : Bool) (l : List Nat) : ∀ (g : Nat → Bool) (j : Nat),
    set_indices v l g j = if j ∈ l then v else g j := by
  induction l with
  | nil => intro g j; simp [set_indices]
  | cons a t ih =>
      intro g j
      show set_indices v t (fun j2 => if j2 = a then v else g j2) j = _
      rw [ih]
      by_cases hj : j ∈ t
      · simp [hj]
      · by_cases hja : j = a
        · simp [hj, hja]
        · simp [hj, hja]

/-- Membership in the add/remove lists produced by folding chunk_step:
an index enters the add list exactly when it is in the chunk and its
neighbor count satisfies the spawn table, and enters the remove list
exactly when it is in the chunk and its count fails the survive table. -/
lemma chunk_map_fold_mem (g : Nat → Bool) (r : GameRule) (j : Nat) :
    ∀ (c : List Nat) (acc : List Nat × List Nat),
      (j ∈ (c.foldl (chunk_step g r) acc).1 ↔
        j ∈ acc.1 ∨ (j ∈ c ∧ r.neighbors_to_spawn (get_neighbors j g) = true)) ∧
      (j ∈ (c.foldl (chunk_step g r) acc).2 ↔
        j ∈ acc.2 ∨ (j ∈ c ∧ r.neighbors_to_surive (get_neighbors j g) = false)) := by
  intro c
  induction c with
  | nil => intro acc; simp
  | cons a t ih =>
      intro acc
      rw [List.foldl_cons]
      refine ⟨?_, ?_⟩
      · rw [(ih _).1]
        by_cases hja : j = a
        · subst hja
          by_cases hsp : r.neighbors_to_spawn (get_neighbors j g) = true <;>
            simp [chunk_step, hsp, List.mem_append] <;> tauto
        · by_cases hsp : r.neighbors_to_spawn (get_neighbors a g) = true <;>
            simp [chunk_step, hsp, List.mem_append, hja] <;> tauto
      · rw [(ih _).2]
        by_cases hja : j = a
        · subst hja
          by_cases hsu : r.neighbors_to_surive (get_neighbors j g) = true <;>
            simp [chunk_step, hsu, List.mem_append] <;> tauto
        · by_cases hsu : r.neighbors_to_surive (get_neighbors a g) = true <;>
            simp [chunk_step, hsu, List.mem_append, hja] <;> tauto

/-- Membership characterization for a whole chunk's add/remove lists. -/
lemma chunk_map_mem (g : Nat → Bool) (r : GameRule) (c : List Nat) (j : Nat) :
    (j ∈ (chunk_map g r c).1 ↔
      j ∈ c ∧ r.neighbors_to_spawn (get_neighbors j g) = true) ∧
    (j ∈ (chunk_map g r c).2 ↔
      j ∈ c ∧ r.neighbors_to_surive (get_neighbors j g) = false) := by
  have h := chunk_map_fold_mem g r j c ([], [])
  simpa [chunk_map] using h

/-- Applying one chunk's add list (then its remove list) to a grid:
removes win over adds for an index in both lists, indices outside the chunk
are untouched. -/
lemma apply_one_eq (g : Nat → Bool) (r : GameRule) (acc : Nat → Bool)
    (c : List Nat) (j : Nat) :
    set_indices false (chunk_map g r c).2 (set_indices true (chunk_map g r c).1 acc) j =
      if j ∈ c then
        (if r.neighbors_to_surive (get_neighbors j g) = false then false
         else if r.neighbors_to_spawn (get_neighbors j g) = true then true
         else acc j)
      else acc j := by
  rw [set_indices_eq, set_indices_eq]
  rcases chunk_map_mem g r c j with ⟨h1, h2⟩
  by_cases hc : j ∈ c
  · by_cases hs : r.neighbors_to_surive (get_neighbors j g) = false
    · rw [if_pos (h2.mpr ⟨hc, hs⟩), if_pos hc, if_pos hs]
    · have hnr : j ∉ (chunk_map g r c).2 := fun hm => hs (h2.mp hm).2
      rw [if_neg hnr, if_pos hc, if_neg hs]
      by_cases hp : r.neighbors_to_spawn (get_neighbors j g) = true
      · rw [if_pos (h1.mpr ⟨hc, hp⟩), if_pos hp]
      · have hna : j ∉ (chunk_map g r c).1 := fun hm => hp (h1.mp hm).2
        rw [if_neg hna, if_neg hp]
  · have hnr : j ∉ (chunk_map g r c).2 := fun hm => hc (h2.mp hm).1
    have hna : j ∉ (chunk_map g r c).1 := fun hm => hc (h1.mp hm).1
    rw [if_neg hnr, if_neg hna, if_neg hc]

/-- The apply phase over any list of chunks: an index belonging to some
chunk gets the rule value (remove wins, then add, else unchanged), an
index in no chunk is untouched.  The per-index value does not depend on
which or how many chunks contain it, because every chunk computes the same
membership for it against the same snapshot grid. -/
lemma apply_changes_map_eq (g : Nat → Bool) (r : GameRule) :
    ∀ (chunks : List (List Nat)) (acc : Nat → Bool) (j : Nat),
      ((∃ c ∈ chunks, j ∈ c) →
        apply_changes (chunks.map (chunk_map g r)) acc j =
          (if r.neighbors_to_surive (get_neighbors j g) = false then false
           else if r.neighbors_to_spawn (get_neighbors j g) = true then true
           else acc j)) ∧
      ((¬ ∃ c ∈ chunks, j ∈ c) →
        apply_changes (chunks.map (chunk_map g r)) acc j = acc j) := by
  intro chunks
  induction chunks with
  | nil =>
      intro acc j
      constructor
      · rintro ⟨c, hc, _⟩
        simp at hc
      · intro _
        rfl
  | cons c cs ih =>
      intro acc j
      have hstep : apply_changes ((c :: cs).map (chunk_map g r)) acc j =
          apply_changes (cs.map (chunk_map g r))
            (set_indices false (chunk_map g r c).2
              (set_indices true (chunk_map g r c).1 acc)) j := rfl
      constructor
      · rintro ⟨c0, hc0, hj0⟩
        rw [hstep]
        by_cases hcs2 : ∃ c2 ∈ cs, j ∈ c2
        · rw [(ih _ j).1 hcs2]
          by_cases hs : r.neighbors_to_surive (get_neighbors j g) = false
          · rw [if_pos hs, if_pos hs]
          · rw [if_neg hs, if_neg hs]
            by_cases hp : r.neighbors_to_spawn (get_neighbors j g) = true
            · rw [if_pos hp, if_pos hp]
            · rw [if_neg hp, if_neg hp, apply_one_eq]
              by_cases hc : j ∈ c
              · rw [if_pos hc, if_neg hs, if_neg hp]
              · rw [if_neg hc]
        · have hjc : j ∈ c := by
            rcases List.mem_cons.mp hc0 with hceq | hmem
            · exact hceq ▸ hj0
            · exact absurd ⟨c0, hmem, hj0⟩ hcs2
          rw [(ih _ j).2 hcs2, apply_one_eq, if_pos hjc]
      · intro hno
        have hnc : j ∉ c := fun hj => hno ⟨c, List.mem_cons_self c cs, hj⟩
        have hncs : ¬ ∃ c2 ∈ cs, j ∈ c2 := by
          rintro ⟨c2, h2, hj⟩
          exact hno ⟨c2, List.mem_cons_of_mem c h2, hj⟩
        rw [hstep, (ih _ j).2 hncs, apply_one_eq, if_neg hnc]

/-- An index is in some chunk of `par_chunks k l` exactly when it is in
`l` (for positive chunk size), length-bounded helper. -/
lemma par_chunks_cover_aux (k : Nat) (hk : 0 < k) : ∀ (n : Nat) (l : List Nat),
    l.length ≤ n → ∀ j, ((∃ c ∈ par_chunks k l, j ∈ c) ↔ j ∈ l) := by
  intro n
  induction n with
  | zero =>
      intro l hl j
      have hnil : l = [] := List.length_eq_zero.mp (Nat.le_zero.mp hl)
      subst hnil
      rw [par_chunks]
      simp
  | succ n ih =>
      intro l hl j
      rw [par_chunks]
      by_cases h : l = []
      · subst h
        simp
      · rw [dif_neg h, dif_neg (by omega : ¬ k = 0)]
        have hlen : (l.drop k).length ≤ n := by
          rw [List.length_drop]
          have hpos : 0 < l.length := List.length_pos.mpr h
          omega
        have hih := ih (l.drop k) hlen j
        constructor
        · rintro ⟨c, hc, hjc⟩
          rcases List.mem_cons.mp hc with hceq | hmem
          · exact List.mem_of_mem_take (hceq ▸ hjc)
          · exact List.mem_of_mem_drop (hih.mp ⟨c, hmem, hjc⟩)
        · intro hj
          have hsplit : j ∈ l.take k ++ l.drop k := by
            rw [List.take_append_drop]
            exact hj
          rcases List.mem_append.mp hsplit with htake | hdrop
          · exact ⟨l.take k, List.mem_cons_self _ _, htake⟩
          · rcases hih.mpr hdrop with ⟨c, hc, hjc⟩
            exact ⟨c, List.mem_cons_of_mem _ hc, hjc⟩

/-- An index is in some chunk of `par_chunks k l` exactly when it is in
`l` (for positive chunk size). -/
lemma par_chunks_cover (k : Nat) (hk : 0 < k) (l : List Nat) (j : Nat) :
    (∃ c ∈ par_chunks k l, j ∈ c) ↔ j ∈ l :=
  par_chunks_cover_aux k hk l.length l le_rfl j

/-- The unpaused step, evaluated at one in-range index, is the synchronous
rule: survive must hold, and the cell is alive when spawn fires or it was
alive before. -/
lemma updater_pointwise (g : Nat → Bool) (r : GameRule) (j : Nat)
    (hj : j < CELL_LOCATIONS_SIZE) :
    cell_location_updater g r false j =
      (r.neighbors_to_surive (get_neighbors j g) &&
       (r.neighbors_to_spawn (get_neighbors j g) || g j)) := by
  have hmem : ∃ c ∈ par_chunks chunck_size (List.range CELL_LOCATIONS_SIZE), j ∈ c := by
    rw [par_chunks_cover chunck_size (by norm_num [chunck_size, CELL_LOCATIONS_SIZE])]
    exact List.mem_range.mpr hj
  have h := (apply_changes_map_eq g r
    (par_chunks chunck_size (List.range CELL_LOCATIONS_SIZE)) g j).1 hmem
  have hrfl : cell_location_updater g r false j =
      apply_changes ((par_chunks chunck_size (List.range CELL_LOCATIONS_SIZE)).map
        (chunk_map g r)) g j := rfl
  rw [hrfl, h]
  cases hs : r.neighbors_to_surive (get_neighbors j g) <;>
    cases hp : r.neighbors_to_spawn (get_neighbors j g) <;>
      cases hgj : g j <;> simp [hs, hp, hgj]

/-- The chunked step under any chunking that covers exactly the index
range is the synchronous rule in range and the identity out of range. -/
lemma chunked_pointwise (g : Nat → Bool) (r : GameRule) (chunks : List (List Nat))
    (hcov : ∀ j2, (∃ c ∈ chunks, j2 ∈ c) ↔ j2 < CELL_LOCATIONS_SIZE) (j : Nat) :
    cell_location_updater_chunked g r chunks j =
      if j < CELL_LOCATIONS_SIZE then
        (if r.neighbors_to_surive (get_neighbors j g) = false then false
         else if r.neighbors_to_spawn (get_neighbors j g) = true then true
         else g j)
      else g j := by
  by_cases hj : j < CELL_LOCATIONS_SIZE
  · rw [if_pos hj]
    exact (apply_changes_map_eq g r chunks g j).1 ((hcov j).mpr hj)
  · rw [if_neg hj]
    exact (apply_changes_map_eq g r chunks g j).2 (fun hex => hj ((hcov j).mp hex))

/-- With a single live cell, every in-range neighbor count is at most 1:
all non-skipped offsets map to pairwise distinct in-range indices, so at
most one of them can hit the live cell. -/
lemma get_neighbors_le_one (g : Nat → Bool) (j0 : Nat)
    (hg : ∀ j, g j = true ↔ j = j0) (i : Nat) (hi : i < CELL_LOCATIONS_SIZE) :
    get_neighbors i g ≤ 1 := by
  rw [get_neighbors_eq_countP]
  apply countP_le_one locations locations_nodup
  intro a ha b hb hpa hpb
  have hbox := loc_box i hi
  have hba := locations_bounds _ ha
  have hbb := locations_bounds _ hb
  set p := translate_index_to_location i with hpdef
  unfold neighbor_counted at hpa hpb
  rw [Bool.and_eq_true] at hpa hpb
  obtain ⟨hda, hga⟩ := hpa
  obtain ⟨hdb, hgb⟩ := hpb
  have hsa := of_decide_eq_true hda
  have hsb := of_decide_eq_true hdb
  push_neg at hsa hsb
  obtain ⟨hsa1, hsa2, hsa3⟩ := hsa
  obtain ⟨hsb1, hsb2, hsb3⟩ := hsb
  simp only [GAME_SIZE] at hsa1 hsa2 hsa3 hsb1 hsb2 hsb3
  obtain ⟨⟨hx1, hx2⟩, ⟨hy1, hy2⟩, ⟨hz1, hz2⟩⟩ := hbox
  obtain ⟨hba1, hba2, hba3⟩ := hba
  obtain ⟨hbb1, hbb2, hbb3⟩ := hbb
  have hja := (hg _).mp hga
  have hjb := (hg _).mp hgb
  have hAx : -50 ≤ p.1 + a.1 ∧ p.1 + a.1 ≤ 49 := by omega
  have hAy : -50 ≤ p.2.1 + a.2.1 ∧ p.2.1 + a.2.1 ≤ 49 := by omega
  have hAz : -50 ≤ p.2.2 + a.2.2 ∧ p.2.2 + a.2.2 ≤ 49 := by omega
  have hBx : -50 ≤ p.1 + b.1 ∧ p.1 + b.1 ≤ 49 := by omega
  have hBy : -50 ≤ p.2.1 + b.2.1 ∧ p.2.1 + b.2.1 ≤ 49 := by omega
  have hBz : -50 ≤ p.2.2 + b.2.2 ∧ p.2.2 + b.2.2 ≤ 49 := by omega
  have hinj := translate_inj (p.1 + a.1) (p.2.1 + a.2.1) (p.2.2 + a.2.2)
    (p.1 + b.1) (p.2.1 + b.2.1) (p.2.2 + b.2.2)
    hAx hAy hAz hBx hBy hBz (by rw [hja, hjb])
  obtain ⟨e1, e2, e3⟩ := hinj
  have f1 : a.1 = b.1 := by omega
  have f2 : a.2.1 = b.2.1 := by omega
  have f3 : a.2.2 = b.2.2 := by omega
  rw [Prod.ext_iff, Prod.ext_iff]
  exact ⟨f1, f2, f3⟩

/-- The default survive table holds exactly on counts 5, 6, 7, 8. -/
lemma default_surive_iff (n : Nat) :
    GameRule.default.neighbors_to_surive n = true ↔
      (n = 5 ∨ n = 6 ∨ n = 7 ∨ n = 8) := by
  simp only [GameRule.default, GameRule.to_dense_array, List.foldl]
  split_ifs <;> simp_all

/-- The default spawn table holds exactly on counts 6, 7, 9. -/
lemma default_spawn_iff (n : Nat) :
    GameRule.default.neighbors_to_spawn n = true ↔
      (n = 6 ∨ n = 7 ∨ n = 9) := by
  simp only [GameRule.default, GameRule.to_dense_array, List.foldl]
  split_ifs <;> simp_all

end Lemmas

section Claims

/-- C4: for every index i in [0, side^3), encoding the decoded position
returns i; and on the lattice box [-side/2, side/2)^3 the encoding decodes
back to the same position with the index in range, so the coordinate
mapping is a bijection between the box and the index range. -/
theorem c4_roundtrip_bijection :
    (∀ i, i < CELL_LOCATIONS_SIZE →
      translate_location_to_index (translate_index_to_location i).1
        (translate_index_to_location i).2.1 (translate_index_to_location i).2.2 = i) ∧
    (∀ x y z : Int, -50 ≤ x → x < 50 → -50 ≤ y → y < 50 → -50 ≤ z → z < 50 →
      translate_index_to_location (translate_location_to_index x y z) = (x, y, z) ∧
      translate_location_to_index x y z < CELL_LOCATIONS_SIZE) := by
  constructor
  · intro i hi
    simp only [translate_index_to_location, translate_location_to_index, GAME_SIZE,
      CELL_LOCATIONS_SIZE] at *
    norm_num
    omega
  · intro x y z hx1 hx2 hy1 hy2 hz1 hz2
    constructor
    · simp only [translate_index_to_location, translate_location_to_index, GAME_SIZE,
        Prod.ext_iff]
      norm_num
      omega
    · exact translate_lt x y z ⟨hx1, by omega⟩ ⟨hy1, by omega⟩ ⟨hz1, by omega⟩

/-- Witness for C4 at index 123456 and position (3, -7, 20). -/
theorem c4_roundtrip_bijection_witness :
    translate_location_to_index (translate_index_to_location 123456).1
      (translate_index_to_location 123456).2.1 (translate_index_to_location 123456).2.2
      = 123456 ∧
    translate_index_to_location (translate_location_to_index 3 (-7) 20) = (3, -7, 20) :=
  ⟨c4_roundtrip_bijection.1 123456 (by norm_num [CELL_LOCATIONS_SIZE]),
   (c4_roundtrip_bijection.2 3 (-7) 20 (by norm_num) (by norm_num) (by norm_num)
     (by norm_num) (by norm_num) (by norm_num)).1⟩

/-- C7: after one unpaused step a cell is alive iff the survive table
holds at its pre-step count and (the spawn table holds or the cell was
alive); in particular a count satisfying spawn but not survive leaves the
cell dead, because each chunk's removes are applied after its adds. -/
theorem c7_step_alive_iff (g : Nat → Bool) (r : GameRule) (i : Nat)
    (hi : i < CELL_LOCATIONS_SIZE) :
    (cell_location_updater g r false i = true ↔
      (r.neighbors_to_surive (get_neighbors i g) = true ∧
       (r.neighbors_to_spawn (get_neighbors i g) = true ∨ g i = true))) ∧
    (r.neighbors_to_spawn (get_neighbors i g) = true →
     r.neighbors_to_surive (get_neighbors i g) = false →
     cell_location_updater g r false i = false) := by
  have h := updater_pointwise g r i hi
  constructor
  · rw [h]
    simp [Bool.and_eq_true, Bool.or_eq_true]
  · intro hp hs
    rw [h, hs]
    simp

/-- Witness for C7: the cell at (0,0,0) with 9 alive neighbors satisfies
spawn but not survive under the default rule and ends the step dead. -/
theorem c7_step_alive_iff_witness :
    cell_location_updater grid_nine GameRule.default false 505050 = false :=
  (c7_step_alive_iff grid_nine GameRule.default 505050
    (by norm_num [CELL_LOCATIONS_SIZE])).2 (by decide) (by decide)

/-- C1 counterexample: under the default rule the dead cell at index
505050 (position (0,0,0)) has pre-step alive-neighbor count 9, which is in
the claimed spawn set {6,7,9}, yet after one unpaused step the cell is
dead (it is pushed to both the add and the remove list and removes are
applied last). -/
theorem c1_counterexample :
    grid_nine 505050 = false ∧
    get_neighbors 505050 grid_nine = 9 ∧
    cell_location_updater grid_nine GameRule.default false 505050 = false := by
  refine ⟨by decide, by decide, ?_⟩
  rw [updater_pointwise grid_nine GameRule.default 505050
    (by norm_num [CELL_LOCATIONS_SIZE])]
  decide

/-- C1 amended: under the default rule, a dead cell is alive after one
unpaused step exactly when its pre-step count is in {6,7} (count 9 fires
spawn but also the remove list, which wins), and an alive cell remains
alive exactly when its count is in {5,6,7,8}. -/
theorem c1_default_rule_step (g : Nat → Bool) (i : Nat)
    (hi : i < CELL_LOCATIONS_SIZE) :
    (g i = false →
      (cell_location_updater g GameRule.default false i = true ↔
        (get_neighbors i g = 6 ∨ get_neighbors i g = 7))) ∧
    (g i = true →
      (cell_location_updater g GameRule.default false i = true ↔
        (get_neighbors i g = 5 ∨ get_neighbors i g = 6 ∨
         get_neighbors i g = 7 ∨ get_neighbors i g = 8))) := by
  have h := updater_pointwise g GameRule.default i hi
  constructor
  · intro hgi
    rw [h, hgi]
    simp only [Bool.or_false, Bool.and_eq_true, default_surive_iff, default_spawn_iff]
    omega
  · intro hgi
    rw [h, hgi]
    simp only [Bool.or_true, Bool.and_true, default_surive_iff]

/-- Witness for the amended C1: a dead cell with a single alive neighbor. -/
theorem c1_default_rule_step_witness :
    cell_location_updater (grid_single 494949) GameRule.default false 505050 = true ↔
      (get_neighbors 505050 (grid_single 494949) = 6 ∨
       get_neighbors 505050 (grid_single 494949) = 7) :=
  (c1_default_rule_step (grid_single 494949) 505050
    (by norm_num [CELL_LOCATIONS_SIZE])).1 (by decide)

/-- C6: starting from a grid whose only live cell is a single isolated
cell, after one unpaused step with the default rule every cell of the grid
is dead. -/
theorem c6_single_cell_dies (g : Nat → Bool) (j0 : Nat)
    (hg : ∀ j, g j = true ↔ j = j0) (i : Nat) (hi : i < CELL_LOCATIONS_SIZE) :
    cell_location_updater g GameRule.default false i = false := by
  have h := updater_pointwise g GameRule.default i hi
  have hle := get_neighbors_le_one g j0 hg i hi
  have hsurv : GameRule.default.neighbors_to_surive (get_neighbors i g) = false := by
    have h01 : get_neighbors i g = 0 ∨ get_neighbors i g = 1 := by omega
    rcases h01 with h0 | h1
    · rw [h0]; decide
    · rw [h1]; decide
  rw [h, hsurv]
  simp

/-- Witness for C6: the single live cell at index 505050, checked at
index 400000. -/
theorem c6_single_cell_dies_witness :
    cell_location_updater (grid_single 505050) GameRule.default false 400000 = false :=
  c6_single_cell_dies (grid_single 505050) 505050
    (fun j => by simp [grid_single]) 400000 (by norm_num [CELL_LOCATIONS_SIZE])

/-- C10: for every in-range index and every offset that passes the
boundary skip test, the neighbor index computed via the coordinate mapper
is in [0, side^3), so the grid access in get_neighbors is in bounds. -/
theorem c10_neighbor_index_in_bounds (i : Nat) (hi : i < CELL_LOCATIONS_SIZE)
    (o : Int × Int × Int) (ho : o ∈ locations)
    (hskip : ¬(((translate_index_to_location i).1.natAbs : Int) + o.1 ≥ GAME_SIZE / 2 - 1 ∨
               ((translate_index_to_location i).2.1.natAbs : Int) + o.2.1 ≥ GAME_SIZE / 2 - 1 ∨
               ((translate_index_to_location i).2.2.natAbs : Int) + o.2.2 ≥ GAME_SIZE / 2 - 1)) :
    translate_location_to_index ((translate_index_to_location i).1 + o.1)
      ((translate_index_to_location i).2.1 + o.2.1)
      ((translate_index_to_location i).2.2 + o.2.2) < CELL_LOCATIONS_SIZE := by
  have hbox := loc_box i hi
  have hbo := locations_bounds _ ho
  push_neg at hskip
  obtain ⟨h1, h2, h3⟩ := hskip
  simp only [GAME_SIZE] at h1 h2 h3
  obtain ⟨⟨hx1, hx2⟩, ⟨hy1, hy2⟩, ⟨hz1, hz2⟩⟩ := hbox
  obtain ⟨hb1, hb2, hb3⟩ := hbo
  apply translate_lt <;> constructor <;> omega

/-- Witness for C10 at index 505050 and offset (-1,-1,-1). -/
theorem c10_neighbor_index_in_bounds_witness :
    translate_location_to_index ((translate_index_to_location 505050).1 + (-1))
      ((translate_index_to_location 505050).2.1 + (-1))
      ((translate_index_to_location 505050).2.2 + (-1)) < CELL_LOCATIONS_SIZE :=
  c10_neighbor_index_in_bounds 505050 (by norm_num [CELL_LOCATIONS_SIZE])
    (-1, -1, -1) (by decide) (by decide)

/-- C8 counterexample: the out-of-range coordinate triple (60, 0, 0) is
mapped with no fatal failure to index 505110, which is in range and
decodes to the different cell (-40, 1, 0): a silent wrapped alias. -/
theorem c8_counterexample :
    translate_location_to_index 60 0 0 = 505110 ∧
    505110 < CELL_LOCATIONS_SIZE ∧
    translate_index_to_location 505110 = (-40, 1, 0) :=
  ⟨by decide, by decide, by decide⟩

/-- C8 amended: the coordinate mapper performs no bounds check; any triple
outside the lattice box (kept within |coord| ≤ 100, where the f32
arithmetic of the source is exact) whose linearization lands in
[0, side^3) silently aliases a different cell's index instead of failing. -/
theorem c8_no_fatal_silent_alias (x y z : Int)
    (hx : x.natAbs ≤ 100) (hy : y.natAbs ≤ 100) (hz : z.natAbs ≤ 100)
    (hout : ¬(-50 ≤ x ∧ x < 50 ∧ -50 ≤ y ∧ y < 50 ∧ -50 ≤ z ∧ z < 50))
    (hin : translate_location_to_index x y z < CELL_LOCATIONS_SIZE) :
    translate_index_to_location (translate_location_to_index x y z) ≠ (x, y, z) := by
  intro heq
  have hbox := loc_box _ hin
  rw [heq] at hbox
  dsimp only at hbox
  obtain ⟨⟨h1, h2⟩, ⟨h3, h4⟩, ⟨h5, h6⟩⟩ := hbox
  exact hout ⟨h1, by omega, h3, by omega, h5, by omega⟩

/-- Witness for the amended C8 at (60, 0, 0). -/
theorem c8_no_fatal_silent_alias_witness :
    translate_index_to_location (translate_location_to_index 60 0 0) ≠ (60, 0, 0) :=
  c8_no_fatal_silent_alias 60 0 0 (by decide) (by decide) (by decide)
    (by decide) (by decide)

/-- C2 counterexample: in the actual chunking of one unpaused step on the
nine-neighbor grid, the chunk containing index 505050 records that index in
both its add list (count 9 fires the default spawn table) and its remove
list (count 9 fails the default survive table). -/
theorem c2_counterexample :
    ∃ c ∈ par_chunks chunck_size (List.range CELL_LOCATIONS_SIZE),
      505050 ∈ c ∧
      505050 ∈ (chunk_map grid_nine GameRule.default c).1 ∧
      505050 ∈ (chunk_map grid_nine GameRule.default c).2 := by
  have hmem : ∃ c ∈ par_chunks chunck_size (List.range CELL_LOCATIONS_SIZE),
      505050 ∈ c := by
    rw [par_chunks_cover chunck_size (by norm_num [chunck_size, CELL_LOCATIONS_SIZE])]
    exact List.mem_range.mpr (by norm_num [CELL_LOCATIONS_SIZE])
  obtain ⟨c, hc, hjc⟩ := hmem
  refine ⟨c, hc, hjc, ?_, ?_⟩
  · exact (chunk_map_mem grid_nine GameRule.default c 505050).1.mpr ⟨hjc, by decide⟩
  · exact (chunk_map_mem grid_nine GameRule.default c 505050).2.mpr ⟨hjc, by decide⟩

/-- C2 amended: an index is recorded in a chunk's add list exactly when it
is in the chunk and its count fires the spawn table, and in the remove
list exactly when it is in the chunk and its count fails the survive
table; the two lists are not mutually exclusive (both hold when spawn
fires and survive fails), and the step stays deterministic only because
every chunk applies its removes after its adds. -/
theorem c2_chunk_list_membership (g : Nat → Bool) (r : GameRule)
    (c : List Nat) (j : Nat) :
    (j ∈ (chunk_map g r c).1 ↔
      j ∈ c ∧ r.neighbors_to_spawn (get_neighbors j g) = true) ∧
    (j ∈ (chunk_map g r c).2 ↔
      j ∈ c ∧ r.neighbors_to_surive (get_neighbors j g) = false) :=
  chunk_map_mem g r c j

/-- C3 counterexample: with only the cell at (-47,0,0) (index 505003)
alive, the cell at (-48,0,0) (index 505002) gets code count 0 — the code
skips offset (1,0,0) because |-48| + 1 ≥ 49 — while the claim's skip
condition |p+o| ≥ 49 would keep that offset (|-47| = 47 < 49) and
count 1. -/
theorem c3_counterexample :
    get_neighbors 505002 (grid_single 505003) = 0 ∧
    get_neighbors_claimed 505002 (grid_single 505003) = 1 :=
  ⟨by decide, by decide⟩

/-- C3 amended: get_neighbors counts exactly the offsets o for which no
axis satisfies the source's skip comparison |p.a| + o.a ≥ side/2 - 1 (the
absolute value applies to the cell's own coordinate, not to the sum) and
whose neighbor index, computed via the coordinate mapper, holds an alive
cell. -/
theorem c3_skip_characterization (g : Nat → Bool) (i : Nat) :
    get_neighbors i g =
      locations.countP (neighbor_counted g (translate_index_to_location i)) :=
  get_neighbors_eq_countP g i

/-- C5: determinism under re-chunking: any two chunk lists covering
exactly the index range produce identical post-step grids, and the actual
unpaused step agrees with the chunked step on any such covering. -/
theorem c5_determinism (g : Nat → Bool) (r : GameRule)
    (cs1 cs2 : List (List Nat))
    (h1 : ∀ j, (∃ c ∈ cs1, j ∈ c) ↔ j < CELL_LOCATIONS_SIZE)
    (h2 : ∀ j, (∃ c ∈ cs2, j ∈ c) ↔ j < CELL_LOCATIONS_SIZE) :
    (∀ i, cell_location_updater_chunked g r cs1 i =
          cell_location_updater_chunked g r cs2 i) ∧
    (∀ i, cell_location_updater g r false i =
          cell_location_updater_chunked g r cs1 i) := by
  have key : ∀ i, cell_location_updater_chunked g r cs1 i =
      cell_location_updater_chunked g r cs2 i := by
    intro i
    rw [chunked_pointwise g r cs1 h1 i, chunked_pointwise g r cs2 h2 i]
  refine ⟨key, ?_⟩
  intro i
  have hcov : ∀ j, (∃ c ∈ par_chunks chunck_size (List.range CELL_LOCATIONS_SIZE),
      j ∈ c) ↔ j < CELL_LOCATIONS_SIZE := by
    intro j
    rw [par_chunks_cover chunck_size (by norm_num [chunck_size, CELL_LOCATIONS_SIZE])]
    exact List.mem_range
  have hrfl : cell_location_updater g r false i =
      cell_location_updater_chunked g r
        (par_chunks chunck_size (List.range CELL_LOCATIONS_SIZE)) i := rfl
  rw [hrfl, chunked_pointwise g r _ hcov i, chunked_pointwise g r cs1 h1 i]

/-- Witness for C5: the 32-chunk production chunking against the single
whole-range chunk, on the empty grid, at index 505050. -/
theorem c5_determinism_witness :
    cell_location_updater_chunked (fun _ => false) GameRule.default
        (par_chunks chunck_size (List.range CELL_LOCATIONS_SIZE)) 505050 =
      cell_location_updater_chunked (fun _ => false) GameRule.default
        [List.range CELL_LOCATIONS_SIZE] 505050 :=
  (c5_determinism (fun _ => false) GameRule.default
    (par_chunks chunck_size (List.range CELL_LOCATIONS_SIZE))
    [List.range CELL_LOCATIONS_SIZE]
    (fun j => by
      rw [par_chunks_cover chunck_size (by norm_num [chunck_size, CELL_LOCATIONS_SIZE])]
      exact List.mem_range)
    (fun j => by simp [List.mem_range])).1 505050

/-- C9: for every rng outcome and nonnegative count, seeding with center
(0,0,0) and radius 20 yields exactly count positions with every axis in
[-10, 10); and for every center and positive radius, every sampled axis
lies in [start, start + radius) where start is the center minus radius/2
clamped into [-side/2, side/2]. -/
theorem c9_seeding_bounds (rng : Nat → Nat) (points : Int) (hp : 0 ≤ points)
    (center : Int × Int × Int) (distance : Int) (hd : 0 < distance) :
    ((create_random_spawn_points points (0, 0, 0) 20 rng).length = points.toNat ∧
     ∀ p ∈ create_random_spawn_points points (0, 0, 0) 20 rng,
       (-10 ≤ p.1 ∧ p.1 < 10) ∧ (-10 ≤ p.2.1 ∧ p.2.1 < 10) ∧
       (-10 ≤ p.2.2 ∧ p.2.2 < 10)) ∧
    (∀ p ∈ create_random_spawn_points points center distance rng,
      (clampI (center.1 - distance / 2) (-(GAME_SIZE / 2)) (GAME_SIZE / 2) ≤ p.1 ∧
       p.1 < clampI (center.1 - distance / 2) (-(GAME_SIZE / 2)) (GAME_SIZE / 2)
              + distance) ∧
      (clampI (center.2.1 - distance / 2) (-(GAME_SIZE / 2)) (GAME_SIZE / 2) ≤ p.2.1 ∧
       p.2.1 < clampI (center.2.1 - distance / 2) (-(GAME_SIZE / 2)) (GAME_SIZE / 2)
              + distance) ∧
      (clampI (center.2.2 - distance / 2) (-(GAME_SIZE / 2)) (GAME_SIZE / 2) ≤ p.2.2 ∧
       p.2.2 < clampI (center.2.2 - distance / 2) (-(GAME_SIZE / 2)) (GAME_SIZE / 2)
              + distance)) := by
  have hs : ∀ (lo d : Int) (r : Nat), 0 < d →
      lo ≤ sample_uniform lo d r ∧ sample_uniform lo d r < lo + d := by
    intro lo d r hd2
    unfold sample_uniform
    have hmod : r % d.toNat < d.toNat := Nat.mod_lt _ (by omega)
    constructor
    · omega
    · omega
  constructor
  · constructor
    · simp [create_random_spawn_points]
    · intro p hp2
      simp only [create_random_spawn_points, List.mem_map, List.mem_range] at hp2
      obtain ⟨k, hk, hpe⟩ := hp2
      have hxs : clampI ((0 : Int) - 20 / 2) (-(GAME_SIZE / 2)) (GAME_SIZE / 2) = -10 := by
        decide
      rw [← hpe]
      dsimp only
      rw [hxs]
      have h1 := hs (-10) 20 (rng (3 * k)) (by norm_num)
      have h2 := hs (-10) 20 (rng (3 * k + 1)) (by norm_num)
      have h3 := hs (-10) 20 (rng (3 * k + 2)) (by norm_num)
      exact ⟨⟨h1.1, by omega⟩, ⟨h2.1, by omega⟩, ⟨h3.1, by omega⟩⟩
  · intro p hp2
    simp only [create_random_spawn_points, List.mem_map, List.mem_range] at hp2
    obtain ⟨k, hk, hpe⟩ := hp2
    rw [← hpe]
    dsimp only
    exact ⟨hs _ distance _ hd, hs _ distance _ hd, hs _ distance _ hd⟩

/-- Witness for C9: two points around (0,0,0) with radius 20, and one
sampled x-axis value for center (60,0,0) with radius 30 (clamped start
45). -/
theorem c9_seeding_bounds_witness :
    (create_random_spawn_points 2 (0, 0, 0) 20 (fun _ => 0)).length
        = (2 : Int).toNat ∧
    (clampI ((60 : Int) - 30 / 2) (-(GAME_SIZE / 2)) (GAME_SIZE / 2) ≤ (45 : Int) ∧
     (45 : Int) < clampI ((60 : Int) - 30 / 2) (-(GAME_SIZE / 2)) (GAME_SIZE / 2) + 30) :=
  ⟨(c9_seeding_bounds (fun _ => 0) 2 (by norm_num) (60, 0, 0) 30 (by norm_num)).1.1,
   ((c9_seeding_bounds (fun _ => 0) 2 (by norm_num) (60, 0, 0) 30 (by norm_num)).2
     ((45 : Int), (-15 : Int), (-15 : Int)) (by decide)).1⟩

end Claims

end Cellular
